import Mathlib

/-!
Verification of the record store and task lifecycle engine of the
`mrt-fe-review-washer` repository.

Shallow embedding conventions:
* Timestamps (`created_at`, `updated_at`, `completed_at`): the code stores
  ISO strings produced by `new Date().toISOString()`; since only freshness
  and comparison matter, they are modelled as natural numbers and every
  operation that calls `nowIso()` takes the current clock value `now : Nat`
  as an explicit parameter.
* The file-backed collection (one JSON file per record under `tasks/` or
  `reviews/`) is modelled as an association list from file name to file
  content.  `JSON.parse` either throws on malformed text or yields a value
  that the code casts to the record type without further validation, so a
  file's content is modelled as either `malformed` (parsing throws) or
  `record r` (parsing succeeds).
* `fs.readFile` on a missing path throws (surfaced as `notFound`);
  `JSON.parse` on malformed text throws (surfaced as `malformedParse`).
  Fallible operations return `Except StoreError`.
* Identifier generation (`newTaskId`, which embeds a timestamp and random
  bytes) is modelled by an explicit supply `ids : Nat → String` of the ids
  produced by successive calls, and similarly `times : Nat → Nat` for the
  successive clock readings.
* JavaScript string comparison (used by `files.sort((a, b) =>
  b.localeCompare(a))` and `String.prototype.endsWith`) is modelled by
  lexicographic comparison on the character sequence.
-/

namespace Washer

/-- `TaskStatus` from `src/services/taskStorage.ts`:
`"pending" | "in_progress" | "completed" | "cancelled"`. -/
inductive TaskStatus : Type
  | pending
  | inProgress
  | completed
  | cancelled
deriving DecidableEq

/-- Severity values `"low" | "medium" | "high"` used by `Task.severity`
and `Finding.severity`. -/
inductive Severity : Type
  | low
  | medium
  | high
deriving DecidableEq

/-- The `Task` record type from `src/services/taskStorage.ts`.  Optional
fields (`?` in TypeScript) are `Option`s; `category` is kept as a plain
string exactly as in the `Task` type. -/
structure Task : Type where
  id : String
  created_at : Nat
  updated_at : Nat
  status : TaskStatus
  source_review_id : Option String := none
  source_finding_index : Option Nat := none
  title : String
  description : String
  file : Option String := none
  startLine : Option Nat := none
  endLine : Option Nat := none
  severity : Severity
  category : Option String := none
  suggestion_patch_diff : Option String := none
  completed_at : Option Nat := none
  verification_note : Option String := none
deriving DecidableEq

/-- The `Finding` shape consumed by `createTasksFromReview`
(`severity`, optional `category`/`file`/`startLine`/`endLine`,
`title_ko`, `detail_ko`, optional `suggestion_patch_diff`). -/
structure Finding : Type where
  severity : Severity
  category : Option String := none
  file : Option String := none
  startLine : Option Nat := none
  endLine : Option Nat := none
  title_ko : String
  detail_ko : String
  suggestion_patch_diff : Option String := none
deriving DecidableEq

/-- `target: { base, head }` of a `ReviewRecord` (`src/services/storage.ts`). -/
structure ReviewTarget : Type where
  base : String
  head : String
deriving DecidableEq

/-- `CriteriaFeedbackItem` from `src/services/storage.ts`. -/
structure CriteriaFeedbackItem : Type where
  good : List String
  improve : List String
deriving DecidableEq

/-- `CriteriaFeedback` from `src/services/storage.ts`: one optional entry
per quality dimension. -/
structure CriteriaFeedback : Type where
  readability : Option CriteriaFeedbackItem := none
  predictability : Option CriteriaFeedbackItem := none
  cohesion : Option CriteriaFeedbackItem := none
  coupling : Option CriteriaFeedbackItem := none
  micro_perspective : Option CriteriaFeedbackItem := none
deriving DecidableEq

/-- `ReviewRecord` from `src/services/storage.ts`. -/
structure ReviewRecord : Type where
  id : String
  created_at : Nat
  target : ReviewTarget
  summary_ko : String
  risk : Option Severity := none
  criteria_feedback : Option CriteriaFeedback := none
  findings : List Finding
  test_scenarios : Option (List String) := none
deriving DecidableEq

/-- Content of one stored file: `JSON.parse` of its text either throws
(`malformed`) or yields the record (`record`). -/
inductive FileContent (α : Type) : Type
  | malformed
  | record (r : α)
deriving DecidableEq

/-- A collection directory: an association list from file name to file
content (one file per record). -/
abbrev FileStore (α : Type) := List (String × FileContent α)

/-- Errors surfaced by store operations: a read of a nonexistent path
(`fs.readFile` → ENOENT) or a `JSON.parse` failure. -/
inductive StoreError : Type
  | notFound
  | malformedParse
deriving DecidableEq

/-! ### JavaScript string primitives -/

/-- Lexicographic (code-unit) comparison of character lists, weak form:
`listLexLe a b` is true iff `a` is not greater than `b`.  Models the
total order JavaScript applies to strings. -/
def listLexLe : List Char → List Char → Bool
  | [], _ => true
  | _ :: _, [] => false
  | a :: as, b :: bs => if a < b then true else if b < a then false else listLexLe as bs

/-- Lexicographic (code-unit) comparison of character lists, strict form. -/
def listLexLt : List Char → List Char → Bool
  | [], [] => false
  | [], _ :: _ => true
  | _ :: _, [] => false
  | a :: as, b :: bs => if a < b then true else if b < a then false else listLexLt as bs

/-- Weak string comparison, `a ≤ b` in JavaScript string order. -/
def strLe (a b : String) : Bool := listLexLe a.data b.data

/-- Strict string comparison, `a < b` in JavaScript string order. -/
def strLt (a b : String) : Bool := listLexLt a.data b.data

/-- JavaScript `s.endsWith(suffix)`. -/
def strEndsWith (s suffix : String) : Bool := suffix.data.isSuffixOf s.data

/-- File name of a stored record: `` `${id}.json` ``. -/
def jsonName (id : String) : String := id ++ ".json"

/-! ### Record store primitives -/

/-- Read and parse one stored file: `fs.readFile` + `JSON.parse`.
Missing file throws ENOENT; malformed content makes `JSON.parse` throw. -/
def readStoredFile {α : Type} (store : FileStore α) (fname : String) :
    Except StoreError α :=
  match store.lookup fname with
  | none => .error .notFound
  | some .malformed => .error .malformedParse
  | some (.record r) => .ok r

/-- `fs.writeFile`: create the file or overwrite it in place. -/
def writeStoredFile {α : Type} (store : FileStore α) (fname : String) (r : α) :
    FileStore α :=
  if store.any (fun p => p.1 == fname) then
    store.map (fun p => if p.1 == fname then (fname, .record r) else p)
  else
    store ++ [(fname, .record r)]

/-- `getTask` from `src/services/taskStorage.ts`: read `tasks/${id}.json`. -/
def getTask (store : FileStore Task) (id : String) : Except StoreError Task :=
  readStoredFile store (jsonName id)

/-- `NewTask` is `Omit<Task, "id" | "created_at" | "updated_at">`, the
argument type of `saveTask`. -/
structure NewTask : Type where
  status : TaskStatus
  source_review_id : Option String := none
  source_finding_index : Option Nat := none
  title : String
  description : String
  file : Option String := none
  startLine : Option Nat := none
  endLine : Option Nat := none
  severity : Severity
  category : Option String := none
  suggestion_patch_diff : Option String := none
  completed_at : Option Nat := none
  verification_note : Option String := none
deriving DecidableEq

/-- The full record built by `saveTask`:
`{ id, created_at: now, updated_at: now, ...task }`. -/
def builtTask (id : String) (now : Nat) (t : NewTask) : Task :=
  { id := id
    created_at := now
    updated_at := now
    status := t.status
    source_review_id := t.source_review_id
    source_finding_index := t.source_finding_index
    title := t.title
    description := t.description
    file := t.file
    startLine := t.startLine
    endLine := t.endLine
    severity := t.severity
    category := t.category
    suggestion_patch_diff := t.suggestion_patch_diff
    completed_at := t.completed_at
    verification_note := t.verification_note }

/-- `saveTask` from `src/services/taskStorage.ts`: generate an id, stamp
`created_at`/`updated_at` with the current time, write
`tasks/${id}.json`, return the full record.  The generated id and the
clock reading are explicit parameters of the embedding. -/
def saveTask (store : FileStore Task) (id : String) (now : Nat) (t : NewTask) :
    FileStore Task × Task :=
  let full := builtTask id now t
  (writeStoredFile store (jsonName id) full, full)

/-- `Partial<Omit<Task, "id" | "created_at">>`, the update argument of
`updateTask`.  For a field that is itself optional in `Task`, an update
may supply the key with an explicit absent value (JavaScript
`undefined`), hence the nested `Option`.  `updated_at` may be supplied
but is overwritten by `updateTask` itself. -/
structure TaskUpdates : Type where
  updated_at : Option Nat := none
  status : Option TaskStatus := none
  source_review_id : Option (Option String) := none
  source_finding_index : Option (Option Nat) := none
  title : Option String := none
  description : Option String := none
  file : Option (Option String) := none
  startLine : Option (Option Nat) := none
  endLine : Option (Option Nat) := none
  severity : Option Severity := none
  category : Option (Option String) := none
  suggestion_patch_diff : Option (Option String) := none
  completed_at : Option (Option Nat) := none
  verification_note : Option (Option String) := none
deriving DecidableEq

/-- The object spread `{ ...existing, ...updates, updated_at: nowIso() }`
of `updateTask`: supplied keys win over `existing`, `updated_at` is
always restamped, and `id`/`created_at` cannot occur in `updates`. -/
def mergeTask (existing : Task) (u : TaskUpdates) (now : Nat) : Task :=
  { id := existing.id
    created_at := existing.created_at
    updated_at := now
    status := u.status.getD existing.status
    source_review_id := u.source_review_id.getD existing.source_review_id
    source_finding_index := u.source_finding_index.getD existing.source_finding_index
    title := u.title.getD existing.title
    description := u.description.getD existing.description
    file := u.file.getD existing.file
    startLine := u.startLine.getD existing.startLine
    endLine := u.endLine.getD existing.endLine
    severity := u.severity.getD existing.severity
    category := u.category.getD existing.category
    suggestion_patch_diff := u.suggestion_patch_diff.getD existing.suggestion_patch_diff
    completed_at := u.completed_at.getD existing.completed_at
    verification_note := u.verification_note.getD existing.verification_note }

/-- `updateTask` from `src/services/taskStorage.ts`: read the current
record, shallow-merge the updates over it, restamp `updated_at`,
rewrite `tasks/${id}.json`, return the updated record. -/
def updateTask (store : FileStore Task) (id : String) (u : TaskUpdates) (now : Nat) :
    Except StoreError (FileStore Task × Task) :=
  match getTask store id with
  | .error e => .error e
  | .ok existing =>
    let updated := mergeTask existing u now
    .ok (writeStoredFile store (jsonName id) updated, updated)

/-- The optional `extra` argument of `updateTaskStatus`
(`{ completed_at?: string; verification_note?: string }`); each field
records whether the key is present and, if so, its (possibly undefined)
value. -/
structure StatusExtra : Type where
  completed_at : Option (Option Nat) := none
  verification_note : Option (Option String) := none
deriving DecidableEq

/-- The update object `{ status, ...extra }` built by `updateTaskStatus`. -/
def statusUpdates (status : TaskStatus) (extra : Option StatusExtra) : TaskUpdates :=
  { status := some status
    completed_at := match extra with
      | none => none
      | some e => e.completed_at
    verification_note := match extra with
      | none => none
      | some e => e.verification_note }

/-- `updateTaskStatus` from `src/services/taskStorage.ts`:
`updateTask(dataDir, id, { status, ...extra })`. -/
def updateTaskStatus (store : FileStore Task) (id : String) (status : TaskStatus)
    (extra : Option StatusExtra) (now : Nat) :
    Except StoreError (FileStore Task × Task) :=
  updateTask store id (statusUpdates status extra) now

/-! ### Listing -/

/-- Directory listing filtered to `.json` files, as in `listTasks` /
`listReviews`. -/
def jsonFiles {α : Type} (store : FileStore α) : FileStore α :=
  store.filter (fun p => strEndsWith p.1 ".json")

/-- The comparator `(a, b) => b.localeCompare(a)` used to sort file names
newest-first: entry `p` precedes entry `q` when `q`'s name is at most
`p`'s name. -/
def nameDesc {α : Type} (p q : String × FileContent α) : Prop :=
  strLe q.1 p.1 = true

instance {α : Type} : DecidableRel (nameDesc (α := α)) :=
  fun p q => inferInstanceAs (Decidable (strLe q.1 p.1 = true))

/-- `files.sort((a, b) => b.localeCompare(a))`: sort the directory
entries by file name, descending. -/
def sortDescByName {α : Type} (l : FileStore α) : FileStore α :=
  l.insertionSort nameDesc

/-- The status filter of `listTasks`:
`if (options?.status && task.status !== options.status) continue`. -/
def statusMatches (filter : Option TaskStatus) (t : Task) : Bool :=
  match filter with
  | none => true
  | some s => t.status == s

/-- The break condition of `listTasks`:
`if (options?.limit && out.length >= options.limit) break`
(note that a JavaScript limit of `0` is falsy and disables the cap). -/
def limitHit (limit : Option Nat) (n : Nat) : Bool :=
  match limit with
  | none => false
  | some k => k != 0 && decide (k ≤ n)

/-- The scan loop of `listTasks`: read and parse each file in order,
skip records that fail the status filter, stop once the limit is
reached.  `out` accumulates matches in reverse. -/
def scanTasks (filter : Option TaskStatus) (limit : Option Nat) :
    FileStore Task → List Task → Except StoreError (List Task)
  | [], out => .ok out.reverse
  | (_, .malformed) :: _, _ => .error .malformedParse
  | (_, .record task) :: rest, out =>
    if statusMatches filter task then
      if limitHit limit (task :: out).length then .ok (task :: out).reverse
      else scanTasks filter limit rest (task :: out)
    else
      scanTasks filter limit rest out

/-- `listTasks` from `src/services/taskStorage.ts`: list the `.json`
files of the collection, sort newest-first, then scan with filter and
limit. -/
def listTasks (store : FileStore Task) (filter : Option TaskStatus)
    (limit : Option Nat) : Except StoreError (List Task) :=
  scanTasks filter limit (sortDescByName (jsonFiles store)) []

/-! ### Review store -/

/-- `getReview` from `src/services/storage.ts`: read
`reviews/${id}.json`. -/
def getReview (store : FileStore ReviewRecord) (id : String) :
    Except StoreError ReviewRecord :=
  readStoredFile store (jsonName id)

/-- Parsing one already-sliced file during `listReviews`. -/
def parsedContent {α : Type} : FileContent α → Except StoreError α
  | .malformed => .error .malformedParse
  | .record r => .ok r

/-- The slice `files.sort(...).slice(0, Math.max(1, limit))` taken by
`listReviews`. -/
def slicedReviews (store : FileStore ReviewRecord) (limit : Nat) :
    FileStore ReviewRecord :=
  (sortDescByName (jsonFiles store)).take (Nat.max 1 limit)

/-- The read loop of `listReviews`: read and parse each sliced file in
order, pushing the parsed records; the first failure aborts. -/
def readSliced {α : Type} : FileStore α → Except StoreError (List α)
  | [] => .ok []
  | (_, c) :: rest =>
    match parsedContent c with
    | .error e => .error e
    | .ok r =>
      match readSliced rest with
      | .error e => .error e
      | .ok rs => .ok (r :: rs)

/-- `listReviews` from `src/services/storage.ts`: slice the sorted
`.json` files and read each one; any parse failure aborts the call. -/
def listReviews (store : FileStore ReviewRecord) (limit : Nat) :
    Except StoreError (List ReviewRecord) :=
  readSliced (slicedReviews store limit)

/-! ### Review → Task converter -/

/-- The record literal passed to `saveTask` for finding number `i` of
review `reviewId` inside `createTasksFromReview`. -/
def findingToNewTask (reviewId : String) (i : Nat) (f : Finding) : NewTask :=
  { status := .pending
    source_review_id := some reviewId
    source_finding_index := some i
    title := f.title_ko
    description := f.detail_ko
    file := f.file
    startLine := f.startLine
    endLine := f.endLine
    severity := f.severity
    category := f.category
    suggestion_patch_diff := f.suggestion_patch_diff }

/-- The `for (let i = 0; ...)` loop of `createTasksFromReview`: save one
task per finding, collecting the created tasks in order. -/
def convertLoop (ids : Nat → String) (times : Nat → Nat) (reviewId : String) :
    Nat → List Finding → FileStore Task → FileStore Task × List Task
  | _, [], store => (store, [])
  | i, f :: rest, store =>
    let r1 := saveTask store (ids i) (times i) (findingToNewTask reviewId i f)
    let r2 := convertLoop ids times reviewId (i + 1) rest r1.1
    (r2.1, r1.2 :: r2.2)

/-- `createTasksFromReview` from `src/services/taskStorage.ts`. -/
def createTasksFromReview (ids : Nat → String) (times : Nat → Nat)
    (reviewId : String) (review : ReviewRecord) (store : FileStore Task) :
    FileStore Task × List Task :=
  convertLoop ids times reviewId 0 review.findings store

/-! ### Tool handlers (`registerTaskTools`) -/

/-- Outcome reported by the `task.from_review` tool. -/
inductive FromReviewResult : Type
  | noFindings
  | created (tasks : List Task)
deriving DecidableEq

/-- The `task.from_review` tool handler: fetch the review; if it has no
findings report an informational empty result without writing; otherwise
convert. -/
def taskFromReview (ids : Nat → String) (times : Nat → Nat)
    (rstore : FileStore ReviewRecord) (tstore : FileStore Task)
    (reviewId : String) :
    Except StoreError (FileStore Task × FromReviewResult) :=
  match getReview rstore reviewId with
  | .error e => .error e
  | .ok review =>
    if review.findings.isEmpty then
      .ok (tstore, .noFindings)
    else
      let r := createTasksFromReview ids times reviewId review tstore
      .ok (r.1, .created r.2)

/-- Outcome reported by the `task.execute` tool: an already-completed
notice, the cancelled-task guidance, or the execution guide for the
record just moved to `in_progress`. -/
inductive ExecuteResult : Type
  | alreadyDone (t : Task)
  | cancelledBlocked
  | started (t : Task)
deriving DecidableEq

/-- The `task.execute` tool handler: completed tasks are reported
already-done with no write; cancelled tasks get guidance text with no
write; otherwise the status is set to `in_progress`. -/
def taskExecute (store : FileStore Task) (id : String) (now : Nat) :
    Except StoreError (FileStore Task × ExecuteResult) :=
  match getTask store id with
  | .error e => .error e
  | .ok task =>
    if task.status = .completed then
      .ok (store, .alreadyDone task)
    else if task.status = .cancelled then
      .ok (store, .cancelledBlocked)
    else
      match updateTaskStatus store id .inProgress none now with
      | .error e => .error e
      | .ok r => .ok (r.1, .started r.2)

/-- Outcome reported by the `task.verify` tool: either the invalid-state
warning (with the current status) or the verification checklist. -/
inductive VerifyResult : Type
  | invalidState (status : TaskStatus)
  | guidance (t : Task)
deriving DecidableEq

/-- The `task.verify` tool handler: purely a read; only `in_progress`
tasks get the checklist, any other status gets the warning text. -/
def taskVerify (store : FileStore Task) (id : String) :
    Except StoreError (FileStore Task × VerifyResult) :=
  match getTask store id with
  | .error e => .error e
  | .ok task =>
    if task.status ≠ .inProgress then
      .ok (store, .invalidState task.status)
    else
      .ok (store, .guidance task)

/-- Outcome reported by the `task.complete` tool. -/
inductive CompleteResult : Type
  | alreadyDone (t : Task)
  | completed (t : Task)
deriving DecidableEq

/-- The `task.complete` tool handler: an already-completed task is
reported as such with no write; otherwise the status becomes
`completed` with `completed_at` stamped to the current time and the
supplied verification note stored (the key is always present in the
extra object, its value may be undefined). -/
def taskComplete (store : FileStore Task) (id : String)
    (verification_note : Option String) (now : Nat) :
    Except StoreError (FileStore Task × CompleteResult) :=
  match getTask store id with
  | .error e => .error e
  | .ok task =>
    if task.status = .completed then
      .ok (store, .alreadyDone task)
    else
      match updateTaskStatus store id .completed
        (some { completed_at := some (some now), verification_note := some verification_note })
        now with
      | .error e => .error e
      | .ok r => .ok (r.1, .completed r.2)

/-- The `task.update_status` tool handler:
`updateTaskStatus(dataDir, id, status)` with no extra fields. -/
def taskUpdateStatusTool (store : FileStore Task) (id : String)
    (status : TaskStatus) (now : Nat) :
    Except StoreError (FileStore Task × Task) :=
  updateTaskStatus store id status none now

/-! ### Specification-side helper definitions -/

/-- The task records contained in a directory slice, in slice order. -/
def recordsOf {α : Type} (l : FileStore α) : List α :=
  l.filterMap (fun p => match p.2 with
    | .record t => some t
    | .malformed => none)

/-- Freshness of an id supply relative to a store: the first `n`
generated ids name files that do not yet exist and are pairwise
distinct.  `newTaskId` provides this with overwhelming probability
(timestamp plus random suffix); it is an explicit hypothesis here. -/
def FreshIds (ids : Nat → String) (n : Nat) (store : FileStore Task) : Prop :=
  (∀ i, i < n → ∀ p, p ∈ store → p.1 ≠ jsonName (ids i)) ∧
  (∀ i, i < n → ∀ j, j < n → ids i = ids j → i = j)

/-- The directory entries created by the conversion loop starting at
finding index `i`, in creation order. -/
def convertEntries (ids : Nat → String) (times : Nat → Nat) (reviewId : String) :
    Nat → List Finding → FileStore Task
  | _, [] => []
  | i, f :: rest =>
    (jsonName (ids i), .record (builtTask (ids i) (times i) (findingToNewTask reviewId i f)))
      :: convertEntries ids times reviewId (i + 1) rest

/-! ### String comparison lemmas -/

theorem listLexLe_total : ∀ a b : List Char, listLexLe a b = true ∨ listLexLe b a = true
  | [], _ => Or.inl rfl
  | _ :: _, [] => Or.inr rfl
  | x :: xs, y :: ys => by
    rcases lt_trichotomy x y with hxy | hxy | hxy
    · left; simp [listLexLe, hxy]
    · subst hxy
      rcases listLexLe_total xs ys with h | h
      · left; simp [listLexLe, lt_irrefl, h]
      · right; simp [listLexLe, lt_irrefl, h]
    · right; simp [listLexLe, hxy]

theorem listLexLe_trans : ∀ a b c : List Char,
    listLexLe a b = true → listLexLe b c = true → listLexLe a c = true
  | [], _, _, _, _ => rfl
  | _ :: _, [], _, h1, _ => by simp [listLexLe] at h1
  | _ :: _, _ :: _, [], _, h2 => by simp [listLexLe] at h2
  | x :: xs, y :: ys, z :: zs, h1, h2 => by
    simp only [listLexLe] at h1 h2 ⊢
    rcases lt_trichotomy x y with hxy | hxy | hxy
    · rcases lt_trichotomy y z with hyz | hyz | hyz
      · simp [lt_trans hxy hyz]
      · subst hyz; simp [hxy]
      · rw [if_neg (asymm hyz), if_pos hyz] at h2; simp at h2
    · subst hxy
      rw [if_neg (lt_irrefl x), if_neg (lt_irrefl x)] at h1
      rcases lt_trichotomy x z with hxz | hxz | hxz
      · simp [hxz]
      · subst hxz
        rw [if_neg (lt_irrefl x), if_neg (lt_irrefl x)] at h2 ⊢
        exact listLexLe_trans xs ys zs h1 h2
      · rw [if_neg (asymm hxz), if_pos hxz] at h2; simp at h2
    · rw [if_neg (asymm hxy), if_pos hxy] at h1; simp at h1

theorem listLexLt_irrefl : ∀ a : List Char, listLexLt a a = false
  | [] => rfl
  | x :: xs => by
    simp only [listLexLt]
    rw [if_neg (lt_irrefl x), if_neg (lt_irrefl x)]
    exact listLexLt_irrefl xs

theorem listLexLt_of_le_of_ne : ∀ a b : List Char,
    listLexLe a b = true → a ≠ b → listLexLt a b = true
  | [], [], _, hne => absurd rfl hne
  | [], _ :: _, _, _ => rfl
  | _ :: _, [], h1, _ => by simp [listLexLe] at h1
  | x :: xs, y :: ys, h1, hne => by
    simp only [listLexLe] at h1
    simp only [listLexLt]
    rcases lt_trichotomy x y with hxy | hxy | hxy
    · simp [hxy]
    · subst hxy
      rw [if_neg (lt_irrefl x), if_neg (lt_irrefl x)] at h1 ⊢
      have hne2 : xs ≠ ys := fun h => hne (by rw [h])
      exact listLexLt_of_le_of_ne xs ys h1 hne2
    · rw [if_neg (asymm hxy), if_pos hxy] at h1; simp at h1

theorem listLexLt_append_cancel (s : List Char) : ∀ a b : List Char, a.length = b.length →
    listLexLt (a ++ s) (b ++ s) = true → listLexLt a b = true
  | [], [], _, h => by
    have h2 : listLexLt s s = true := h
    rw [listLexLt_irrefl s] at h2
    simp at h2
  | [], _ :: _, hlen, _ => by simp at hlen
  | _ :: _, [], hlen, _ => by simp at hlen
  | x :: xs, y :: ys, hlen, h => by
    simp only [List.cons_append, listLexLt] at h ⊢
    rcases lt_trichotomy x y with hxy | hxy | hxy
    · simp [hxy]
    · subst hxy
      rw [if_neg (lt_irrefl x), if_neg (lt_irrefl x)] at h ⊢
      exact listLexLt_append_cancel s xs ys (by simpa using hlen) h
    · rw [if_neg (asymm hxy), if_pos hxy] at h; simp at h

theorem string_data_append (a b : String) : (a ++ b).data = a.data ++ b.data := by
  cases a; cases b; rfl

theorem string_length_data (s : String) : s.length = s.data.length := rfl

theorem strLt_append_cancel (a b s : String) (hlen : a.length = b.length)
    (h : strLt (a ++ s) (b ++ s) = true) : strLt a b = true := by
  unfold strLt at h ⊢
  rw [string_data_append, string_data_append] at h
  exact listLexLt_append_cancel s.data a.data b.data
    (by rw [← string_length_data, ← string_length_data, hlen]) h

theorem strLt_of_le_of_ne {a b : String} (h1 : strLe a b = true) (hne : a ≠ b) :
    strLt a b = true := by
  unfold strLe at h1
  unfold strLt
  exact listLexLt_of_le_of_ne a.data b.data h1 fun hd => hne (String.ext hd)

theorem jsonName_inj {a b : String} (h : jsonName a = jsonName b) : a = b := by
  unfold jsonName at h
  have hd := congrArg String.data h
  rw [string_data_append, string_data_append] at hd
  exact String.ext (List.append_cancel_right hd)

instance {α : Type} : IsTotal (String × FileContent α) nameDesc where
  total := fun p q => listLexLe_total q.1.data p.1.data

instance {α : Type} : IsTrans (String × FileContent α) nameDesc where
  trans := fun _ _ _ h1 h2 => listLexLe_trans _ _ _ h2 h1

/-! ### Store read/write lemmas -/

theorem lookup_eq_none_of_any_eq_false {α : Type} :
    ∀ (store : FileStore α) (fname : String),
      store.any (fun p => p.1 == fname) = false → store.lookup fname = none
  | [], _, _ => rfl
  | (f, c) :: rest, fname, h => by
    simp only [List.any_cons, Bool.or_eq_false_iff] at h
    have hne : (fname == f) = false := by
      rw [beq_eq_false_iff_ne] at h ⊢
      exact fun he => h.1 he.symm
    rw [List.lookup_cons, hne]
    exact lookup_eq_none_of_any_eq_false rest fname h.2

theorem lookup_map_overwrite {α : Type} (fname : String) (r : α) :
    ∀ store : FileStore α,
      store.any (fun p => p.1 == fname) = true →
      (store.map (fun p => if p.1 == fname then (fname, FileContent.record r) else p)).lookup
          fname = some (.record r)
  | [], h => by simp at h
  | (f, c) :: rest, h => by
    by_cases hf : (f == fname) = true
    · simp only [List.map_cons, hf, if_true]
      rw [List.lookup_cons]
      simp
    · have hf2 : (f == fname) = false := by
        cases hb : (f == fname)
        · rfl
        · exact absurd hb hf
      have hrest : rest.any (fun p => p.1 == fname) = true := by
        simp only [List.any_cons, hf2, Bool.false_or] at h
        exact h
      simp only [List.map_cons, hf2, if_false, Bool.false_eq_true]
      rw [List.lookup_cons]
      have hne : (fname == f) = false := by
        rw [beq_eq_false_iff_ne] at hf2 ⊢
        exact fun he => hf2 he.symm
      rw [hne]
      exact lookup_map_overwrite fname r rest hrest

theorem readStoredFile_write_self {α : Type} (store : FileStore α) (fname : String) (r : α) :
    readStoredFile (writeStoredFile store fname r) fname = .ok r := by
  unfold writeStoredFile readStoredFile
  by_cases h : store.any (fun p => p.1 == fname) = true
  · rw [if_pos h, lookup_map_overwrite fname r store h]
  · have h2 : store.any (fun p => p.1 == fname) = false := by
      cases hb : store.any (fun p => p.1 == fname)
      · rfl
      · exact absurd hb h
    rw [if_neg (by rw [h2]; simp), List.lookup_append,
      lookup_eq_none_of_any_eq_false store fname h2]
    rw [List.lookup_cons]
    simp

theorem getTask_updateTask (u : TaskUpdates) (now : Nat) {store : FileStore Task}
    {id : String} {t : Task} (h : getTask store id = .ok t) :
    updateTask store id u now =
      .ok (writeStoredFile store (jsonName id) (mergeTask t u now), mergeTask t u now) := by
  unfold updateTask
  rw [h]

theorem getTask_write_self (store : FileStore Task) (id : String) (t : Task) :
    getTask (writeStoredFile store (jsonName id) t) id = .ok t := by
  unfold getTask
  exact readStoredFile_write_self store (jsonName id) t

/-! ### Claim C2: updateTask -/

/-- C2: for every stored task id and permitted partial update `u` (which
cannot name `id` or `created_at`), `updateTask` shallow-merges: exactly
the supplied keys change, `id` and `created_at` keep their prior values,
`updated_at` is restamped with the current time, the full record is
rewritten and returned, so a subsequent read sees the new status and a
strictly greater `updated_at` whenever the clock advanced; on a missing
id the operation fails with NotFound. -/
theorem updateTask_spec (store : FileStore Task) (id : String) (u : TaskUpdates) (now : Nat) :
    (∀ t, getTask store id = .ok t →
      ∃ store2 t2,
        updateTask store id u now = .ok (store2, t2) ∧
        t2.id = t.id ∧
        t2.created_at = t.created_at ∧
        t2.updated_at = now ∧
        t2.status = u.status.getD t.status ∧
        t2.source_review_id = u.source_review_id.getD t.source_review_id ∧
        t2.source_finding_index = u.source_finding_index.getD t.source_finding_index ∧
        t2.title = u.title.getD t.title ∧
        t2.description = u.description.getD t.description ∧
        t2.file = u.file.getD t.file ∧
        t2.startLine = u.startLine.getD t.startLine ∧
        t2.endLine = u.endLine.getD t.endLine ∧
        t2.severity = u.severity.getD t.severity ∧
        t2.category = u.category.getD t.category ∧
        t2.suggestion_patch_diff = u.suggestion_patch_diff.getD t.suggestion_patch_diff ∧
        t2.completed_at = u.completed_at.getD t.completed_at ∧
        t2.verification_note = u.verification_note.getD t.verification_note ∧
        getTask store2 id = .ok t2 ∧
        (t.updated_at < now → t.updated_at < t2.updated_at)) ∧
    (store.lookup (jsonName id) = none → updateTask store id u now = .error .notFound) := by
  constructor
  · intro t h
    refine ⟨_, mergeTask t u now, getTask_updateTask _ _ h, rfl, rfl, rfl, rfl, rfl, rfl, rfl,
      rfl, rfl, rfl, rfl, rfl, rfl, rfl, rfl, rfl, getTask_write_self store id _, ?_⟩
    intro hlt
    exact hlt
  · intro hnone
    unfold updateTask getTask readStoredFile
    rw [hnone]

/-- C2 witness: a concrete store with one pending task; updating its
status succeeds, keeps `id`/`created_at`, restamps `updated_at`, and the
rewritten record is read back; a missing id yields NotFound. -/
theorem updateTask_spec_witness :
    ∃ store2 t2,
      updateTask
        [(jsonName "a", FileContent.record
          { id := "a", created_at := 0, updated_at := 0, status := TaskStatus.pending,
            title := "t", description := "d", severity := Severity.low })]
        "a" { status := some .inProgress } 5 = .ok (store2, t2) ∧
      t2.status = TaskStatus.inProgress ∧ t2.id = "a" ∧ t2.created_at = 0 ∧
      t2.updated_at = 5 ∧ (0 : Nat) < t2.updated_at ∧ getTask store2 "a" = .ok t2 := by
  obtain ⟨s2, t2, h1, h2, h3, h4, h5, -, -, -, -, -, -, -, -, -, -, -, -, h18, h19⟩ :=
    (updateTask_spec
      [(jsonName "a", FileContent.record
        { id := "a", created_at := 0, updated_at := 0, status := TaskStatus.pending,
          title := "t", description := "d", severity := Severity.low })]
      "a" { status := some .inProgress } 5).1
      { id := "a", created_at := 0, updated_at := 0, status := TaskStatus.pending,
        title := "t", description := "d", severity := Severity.low } rfl
  exact ⟨s2, t2, h1, h5, h2, h3, h4, h19 (by decide), h18⟩

/-! ### Claim C3: execute on a completed task -/

/-- C3: `task.execute` on a completed task performs no transition and no
write: the store is returned unchanged (so every field of every record,
including `status`, `completed_at` and `updated_at`, is unchanged) and
the caller is signalled already-done rather than receiving an error. -/
theorem taskExecute_completed_noop (store : FileStore Task) (id : String) (now : Nat)
    (t : Task) (h : getTask store id = .ok t) (hc : t.status = .completed) :
    taskExecute store id now = .ok (store, .alreadyDone t) := by
  unfold taskExecute
  rw [h]
  simp [hc]

/-- C3 witness: a concrete completed task; execute returns the unchanged
store and the already-done signal. -/
theorem taskExecute_completed_noop_witness :
    taskExecute
      [(jsonName "a", FileContent.record
        { id := "a", created_at := 0, updated_at := 1, status := TaskStatus.completed,
          title := "t", description := "d", severity := Severity.low,
          completed_at := some 1 })]
      "a" 7 =
      .ok ([(jsonName "a", FileContent.record
        { id := "a", created_at := 0, updated_at := 1, status := TaskStatus.completed,
          title := "t", description := "d", severity := Severity.low,
          completed_at := some 1 })],
        .alreadyDone
          { id := "a", created_at := 0, updated_at := 1, status := TaskStatus.completed,
            title := "t", description := "d", severity := Severity.low,
            completed_at := some 1 }) :=
  taskExecute_completed_noop _ "a" 7 _ rfl rfl

/-! ### Claim C4: execute on a cancelled task -/

/-- C4: `task.execute` on a cancelled task reports the invalid-transition
guidance (not a crash), performs no write (the store is returned
unchanged), and the task becomes executable again after an explicit
direct status update. -/
theorem taskExecute_cancelled_rejected (store : FileStore Task) (id : String) (now : Nat)
    (t : Task) (h : getTask store id = .ok t) (hc : t.status = .cancelled) :
    taskExecute store id now = .ok (store, .cancelledBlocked) ∧
    (∀ now2 now3, ∃ store2 t2,
      taskUpdateStatusTool store id .pending now2 = .ok (store2, t2) ∧
      ∃ store3 t3, taskExecute store2 id now3 = .ok (store3, .started t3) ∧
        t3.status = .inProgress) := by
  constructor
  · unfold taskExecute
    rw [h]
    simp [hc]
  · intro now2 now3
    refine ⟨writeStoredFile store (jsonName id) (mergeTask t (statusUpdates .pending none) now2),
      mergeTask t (statusUpdates .pending none) now2, ?_, ?_⟩
    · unfold taskUpdateStatusTool updateTaskStatus
      exact getTask_updateTask _ _ h
    · have hread := getTask_write_self store id (mergeTask t (statusUpdates .pending none) now2)
      refine ⟨writeStoredFile (writeStoredFile store (jsonName id)
          (mergeTask t (statusUpdates .pending none) now2)) (jsonName id)
          (mergeTask (mergeTask t (statusUpdates .pending none) now2)
            (statusUpdates .inProgress none) now3),
        mergeTask (mergeTask t (statusUpdates .pending none) now2)
          (statusUpdates .inProgress none) now3, ?_, rfl⟩
      have hupd := getTask_updateTask (statusUpdates .inProgress none) now3 hread
      unfold taskExecute updateTaskStatus
      rw [hread]
      simp [show (mergeTask t (statusUpdates .pending none) now2).status = TaskStatus.pending
        from rfl, hupd]

/-- C4 witness: a concrete cancelled task; execute reports the blocked
guidance with the store unchanged, and after a direct status update to
pending it starts. -/
theorem taskExecute_cancelled_rejected_witness :
    taskExecute
      [(jsonName "a", FileContent.record
        { id := "a", created_at := 0, updated_at := 1, status := TaskStatus.cancelled,
          title := "t", description := "d", severity := Severity.low })]
      "a" 7 =
      .ok ([(jsonName "a", FileContent.record
        { id := "a", created_at := 0, updated_at := 1, status := TaskStatus.cancelled,
          title := "t", description := "d", severity := Severity.low })],
        .cancelledBlocked) ∧
    (∃ store2 t2,
      taskUpdateStatusTool
        [(jsonName "a", FileContent.record
          { id := "a", created_at := 0, updated_at := 1, status := TaskStatus.cancelled,
            title := "t", description := "d", severity := Severity.low })]
        "a" .pending 8 = .ok (store2, t2) ∧
      ∃ store3 t3, taskExecute store2 "a" 9 = .ok (store3, .started t3) ∧
        t3.status = .inProgress) := by
  obtain ⟨h1, h2⟩ := taskExecute_cancelled_rejected
    [(jsonName "a", FileContent.record
      { id := "a", created_at := 0, updated_at := 1, status := TaskStatus.cancelled,
        title := "t", description := "d", severity := Severity.low })]
    "a" 7 _ rfl rfl
  exact ⟨h1, h2 8 9⟩

/-! ### Claim C5: complete on an in-progress task -/

/-- C5: `task.complete` on an `in_progress` task sets the status to
`completed`, stamps `completed_at` with the current time and stores the
supplied verification note; the rewritten record is read back, and a
second `task.complete` on the now-completed task is a no-op that leaves
the store untouched and signals already-done with the same record (hence
the same `completed_at`). -/
theorem taskComplete_inProgress_spec (store : FileStore Task) (id : String)
    (note : Option String) (now : Nat) (t : Task)
    (h : getTask store id = .ok t) (hs : t.status = .inProgress) :
    ∃ store2 t2, taskComplete store id note now = .ok (store2, .completed t2) ∧
      t2.status = .completed ∧
      t2.completed_at = some now ∧
      t2.verification_note = note ∧
      t2.updated_at = now ∧
      getTask store2 id = .ok t2 ∧
      ∀ note2 now2, taskComplete store2 id note2 now2 = .ok (store2, .alreadyDone t2) := by
  refine ⟨writeStoredFile store (jsonName id) (mergeTask t (statusUpdates .completed
      (some { completed_at := some (some now), verification_note := some note })) now),
    mergeTask t (statusUpdates .completed
      (some { completed_at := some (some now), verification_note := some note })) now,
    ?_, rfl, rfl, rfl, rfl, getTask_write_self store id _, ?_⟩
  · have hupd := getTask_updateTask (statusUpdates .completed
      (some { completed_at := some (some now), verification_note := some note })) now h
    unfold taskComplete updateTaskStatus
    rw [h]
    simp [hs, hupd]
  · intro note2 now2
    unfold taskComplete
    rw [getTask_write_self store id _]
    rfl

/-- C5 witness: a concrete in-progress task completed with a note at time
9; the stored record carries `completed_at = 9` and the note, and a
second completion is an already-done no-op. -/
theorem taskComplete_inProgress_spec_witness :
    ∃ store2 t2,
      taskComplete
        [(jsonName "a", FileContent.record
          { id := "a", created_at := 0, updated_at := 1, status := TaskStatus.inProgress,
            title := "t", description := "d", severity := Severity.low })]
        "a" (some "done") 9 = .ok (store2, .completed t2) ∧
      t2.status = .completed ∧ t2.completed_at = some 9 ∧
      t2.verification_note = some "done" ∧ getTask store2 "a" = .ok t2 ∧
      taskComplete store2 "a" none 11 = .ok (store2, .alreadyDone t2) := by
  obtain ⟨s2, t2, h1, h2, h3, h4, _, h6, h7⟩ := taskComplete_inProgress_spec
    [(jsonName "a", FileContent.record
      { id := "a", created_at := 0, updated_at := 1, status := TaskStatus.inProgress,
        title := "t", description := "d", severity := Severity.low })]
    "a" (some "done") 9 _ rfl rfl
  exact ⟨s2, t2, h1, h2, h3, h4, h6, h7 none 11⟩

/-! ### Claim C7: verify is read-only and in-progress-only -/

/-- C7: `task.verify` never writes to the store (every successful call
returns the store unchanged); for an `in_progress` task it returns the
verification guidance, and for a task in any other status it reports the
invalid-state precondition failure instead of a value. -/
theorem taskVerify_spec (store : FileStore Task) (id : String) :
    (∀ store2 r, taskVerify store id = .ok (store2, r) → store2 = store) ∧
    (∀ t, getTask store id = .ok t →
      (t.status = .inProgress → taskVerify store id = .ok (store, .guidance t)) ∧
      (t.status ≠ .inProgress → taskVerify store id = .ok (store, .invalidState t.status))) := by
  constructor
  · intro store2 r hr
    unfold taskVerify at hr
    cases hg : getTask store id with
    | error e => rw [hg] at hr; simp at hr
    | ok t =>
      rw [hg] at hr
      by_cases hs : t.status = .inProgress
      · simp [hs] at hr
        exact hr.1.symm
      · simp [hs] at hr
        exact hr.1.symm
  · intro t h
    constructor
    · intro hs
      unfold taskVerify
      rw [h]
      simp [hs]
    · intro hs
      unfold taskVerify
      rw [h]
      simp [hs]

/-- C7 witness: on a concrete pending task, verify reports invalid state
with the store unchanged; on an in-progress task it returns guidance. -/
theorem taskVerify_spec_witness :
    taskVerify
      [(jsonName "a", FileContent.record
        { id := "a", created_at := 0, updated_at := 1, status := TaskStatus.pending,
          title := "t", description := "d", severity := Severity.low })]
      "a" =
      .ok ([(jsonName "a", FileContent.record
        { id := "a", created_at := 0, updated_at := 1, status := TaskStatus.pending,
          title := "t", description := "d", severity := Severity.low })],
        .invalidState TaskStatus.pending) := by
  have h := ((taskVerify_spec
    [(jsonName "a", FileContent.record
      { id := "a", created_at := 0, updated_at := 1, status := TaskStatus.pending,
        title := "t", description := "d", severity := Severity.low })]
    "a").2
    { id := "a", created_at := 0, updated_at := 1, status := TaskStatus.pending,
      title := "t", description := "d", severity := Severity.low } rfl).2 (by decide)
  exact h

/-! ### Claim C9: complete is guarded only by "not already completed" -/

/-- C9: `task.complete` on a `pending` or `cancelled` task (not only
`in_progress`) transitions it directly to `completed` and stamps
`completed_at`: the only guard is that the task is not already
completed. -/
theorem taskComplete_pending_cancelled (store : FileStore Task) (id : String)
    (note : Option String) (now : Nat) (t : Task)
    (h : getTask store id = .ok t)
    (hs : t.status = .pending ∨ t.status = .cancelled) :
    ∃ store2 t2, taskComplete store id note now = .ok (store2, .completed t2) ∧
      t2.status = .completed ∧ t2.completed_at = some now ∧
      getTask store2 id = .ok t2 := by
  refine ⟨writeStoredFile store (jsonName id) (mergeTask t (statusUpdates .completed
      (some { completed_at := some (some now), verification_note := some note })) now),
    mergeTask t (statusUpdates .completed
      (some { completed_at := some (some now), verification_note := some note })) now,
    ?_, rfl, rfl, getTask_write_self store id _⟩
  have hne : ¬ t.status = TaskStatus.completed := by
    rcases hs with hs | hs <;> rw [hs] <;> intro hcon <;> cases hcon
  have hupd := getTask_updateTask (statusUpdates .completed
    (some { completed_at := some (some now), verification_note := some note })) now h
  unfold taskComplete updateTaskStatus
  rw [h]
  simp [hne, hupd]

/-- C9 witness: completing a concrete cancelled task at time 9 succeeds
directly and stamps `completed_at = 9`. -/
theorem taskComplete_pending_cancelled_witness :
    ∃ store2 t2,
      taskComplete
        [(jsonName "a", FileContent.record
          { id := "a", created_at := 0, updated_at := 1, status := TaskStatus.cancelled,
            title := "t", description := "d", severity := Severity.low })]
        "a" none 9 = .ok (store2, .completed t2) ∧
      t2.status = .completed ∧ t2.completed_at = some 9 := by
  obtain ⟨s2, t2, h1, h2, h3, _⟩ := taskComplete_pending_cancelled
    [(jsonName "a", FileContent.record
      { id := "a", created_at := 0, updated_at := 1, status := TaskStatus.cancelled,
        title := "t", description := "d", severity := Severity.low })]
    "a" none 9 _ rfl (Or.inr rfl)
  exact ⟨s2, t2, h1, h2, h3⟩

/-! ### Claim C10: direct status update touches only status and updated_at -/

/-- C10: `task.update_status` with only a target status sets `status`
and restamps `updated_at` but leaves `completed_at`,
`verification_note` and every other field at their prior values; in
particular a task moved to `completed` this way gets no `completed_at`
stamped. -/
theorem taskUpdateStatusTool_spec (store : FileStore Task) (id : String)
    (s : TaskStatus) (now : Nat) (t : Task) (h : getTask store id = .ok t) :
    ∃ store2 t2, taskUpdateStatusTool store id s now = .ok (store2, t2) ∧
      t2.status = s ∧ t2.updated_at = now ∧
      t2.id = t.id ∧ t2.created_at = t.created_at ∧
      t2.completed_at = t.completed_at ∧
      t2.verification_note = t.verification_note ∧
      t2.source_review_id = t.source_review_id ∧
      t2.source_finding_index = t.source_finding_index ∧
      t2.title = t.title ∧ t2.description = t.description ∧
      t2.file = t.file ∧ t2.startLine = t.startLine ∧ t2.endLine = t.endLine ∧
      t2.severity = t.severity ∧ t2.category = t.category ∧
      t2.suggestion_patch_diff = t.suggestion_patch_diff ∧
      getTask store2 id = .ok t2 := by
  refine ⟨writeStoredFile store (jsonName id) (mergeTask t (statusUpdates s none) now),
    mergeTask t (statusUpdates s none) now, ?_, rfl, rfl, rfl, rfl, rfl, rfl,
    rfl, rfl, rfl, rfl, rfl, rfl, rfl, rfl, rfl, rfl, getTask_write_self store id _⟩
  unfold taskUpdateStatusTool updateTaskStatus
  exact getTask_updateTask _ _ h

/-- C10 witness: a concrete in-progress task moved directly to
`completed` keeps `completed_at = none` and its other fields. -/
theorem taskUpdateStatusTool_spec_witness :
    ∃ store2 t2,
      taskUpdateStatusTool
        [(jsonName "a", FileContent.record
          { id := "a", created_at := 0, updated_at := 1, status := TaskStatus.inProgress,
            title := "t", description := "d", severity := Severity.low })]
        "a" .completed 9 = .ok (store2, t2) ∧
      t2.status = .completed ∧ t2.updated_at = 9 ∧ t2.completed_at = none ∧
      t2.verification_note = none := by
  obtain ⟨s2, t2, h1, h2, h3, _, _, h6, h7, _⟩ := taskUpdateStatusTool_spec
    [(jsonName "a", FileContent.record
      { id := "a", created_at := 0, updated_at := 1, status := TaskStatus.inProgress,
        title := "t", description := "d", severity := Severity.low })]
    "a" .completed 9 _ rfl
  exact ⟨s2, t2, h1, h2, h3, h6, h7⟩

/-! ### Converter lemmas -/

theorem convertLoop_tasks_len (ids : Nat → String) (times : Nat → Nat) (rid : String) :
    ∀ (i : Nat) (fs : List Finding) (store : FileStore Task),
      (convertLoop ids times rid i fs store).2.length = fs.length
  | _, [], _ => rfl
  | i, f :: rest, store => by
    simp only [convertLoop, List.length_cons]
    rw [convertLoop_tasks_len ids times rid (i + 1) rest _]

theorem convertLoop_tasks_get (ids : Nat → String) (times : Nat → Nat) (rid : String) :
    ∀ (i : Nat) (fs : List Finding) (store : FileStore Task) (j : Nat) (f : Finding),
      fs[j]? = some f →
      (convertLoop ids times rid i fs store).2[j]? =
        some (builtTask (ids (i + j)) (times (i + j)) (findingToNewTask rid (i + j) f))
  | _, [], _, j, _, hf => by simp at hf
  | i, f0 :: rest, store, 0, f, hf => by
    simp only [List.getElem?_cons_zero, Option.some.injEq] at hf
    subst hf
    simp [convertLoop, saveTask]
  | i, f0 :: rest, store, j + 1, f, hf => by
    simp only [List.getElem?_cons_succ] at hf
    have ih := convertLoop_tasks_get ids times rid (i + 1)
      rest ((saveTask store (ids i) (times i) (findingToNewTask rid i f0)).1) j f hf
    simp only [convertLoop, List.getElem?_cons_succ]
    rw [ih]
    have harith : i + 1 + j = i + (j + 1) := by omega
    rw [harith]

theorem convertEntries_length (ids : Nat → String) (times : Nat → Nat) (rid : String) :
    ∀ (i : Nat) (fs : List Finding),
      (convertEntries ids times rid i fs).length = fs.length
  | _, [] => rfl
  | i, _ :: rest => by
    simp only [convertEntries, List.length_cons]
    rw [convertEntries_length ids times rid (i + 1) rest]

theorem any_name_eq_false {α : Type} {store : FileStore α} {fname : String}
    (h : ∀ p, p ∈ store → p.1 ≠ fname) :
    store.any (fun p => p.1 == fname) = false := by
  rw [List.any_eq_false]
  intro p hp
  simp only [beq_iff_eq]
  exact h p hp

theorem convertLoop_store_fresh (ids : Nat → String) (times : Nat → Nat) (rid : String) :
    ∀ (i : Nat) (fs : List Finding) (store : FileStore Task),
      (∀ k, k < fs.length → ∀ p, p ∈ store → p.1 ≠ jsonName (ids (i + k))) →
      (∀ k, k < fs.length → ∀ l, l < fs.length → ids (i + k) = ids (i + l) → k = l) →
      (convertLoop ids times rid i fs store).1 = store ++ convertEntries ids times rid i fs
  | _, [], store, _, _ => by simp [convertLoop, convertEntries]
  | i, f0 :: rest, store, hfresh, hinj => by
    have hany : store.any (fun p => p.1 == jsonName (ids i)) = false := by
      refine any_name_eq_false fun p hp => ?_
      have := hfresh 0 (by simp) p hp
      simpa using this
    have hwrite : (saveTask store (ids i) (times i) (findingToNewTask rid i f0)).1 =
        store ++ [(jsonName (ids i),
          .record (builtTask (ids i) (times i) (findingToNewTask rid i f0)))] := by
      simp [saveTask, writeStoredFile, hany]
    have hfresh2 : ∀ k, k < rest.length →
        ∀ p, p ∈ store ++ [(jsonName (ids i),
            .record (builtTask (ids i) (times i) (findingToNewTask rid i f0)))] →
          p.1 ≠ jsonName (ids (i + 1 + k)) := by
      intro k hk p hp
      rcases List.mem_append.mp hp with hp | hp
      · have := hfresh (k + 1) (by simpa using Nat.succ_lt_succ hk) p hp
        have harith : i + (k + 1) = i + 1 + k := by omega
        rwa [harith] at this
      · simp only [List.mem_singleton] at hp
        subst hp
        intro hcon
        have hid := jsonName_inj hcon
        have harith : i + 1 + k = i + (k + 1) := by omega
        rw [harith] at hid
        have := hinj 0 (by simp) (k + 1) (by simpa using Nat.succ_lt_succ hk)
          (by simpa using hid)
        simp at this
    have hinj2 : ∀ k, k < rest.length → ∀ l, l < rest.length →
        ids (i + 1 + k) = ids (i + 1 + l) → k = l := by
      intro k hk l hl he
      have ha1 : i + 1 + k = i + (k + 1) := by omega
      have ha2 : i + 1 + l = i + (l + 1) := by omega
      rw [ha1, ha2] at he
      have := hinj (k + 1) (by simpa using Nat.succ_lt_succ hk)
        (l + 1) (by simpa using Nat.succ_lt_succ hl) he
      omega
    have ih := convertLoop_store_fresh ids times rid (i + 1) rest _ hfresh2 hinj2
    simp only [convertLoop, hwrite]
    rw [ih, convertEntries, List.append_assoc, List.singleton_append]

theorem convertEntries_lookup (ids : Nat → String) (times : Nat → Nat) (rid : String) :
    ∀ (i : Nat) (fs : List Finding) (j : Nat) (f : Finding),
      fs[j]? = some f →
      (∀ k, k < fs.length → ∀ l, l < fs.length → ids (i + k) = ids (i + l) → k = l) →
      (convertEntries ids times rid i fs).lookup (jsonName (ids (i + j))) =
        some (.record (builtTask (ids (i + j)) (times (i + j))
          (findingToNewTask rid (i + j) f)))
  | _, [], j, _, hf, _ => by simp at hf
  | i, f0 :: rest, 0, f, hf, _ => by
    simp only [List.getElem?_cons_zero, Option.some.injEq] at hf
    subst hf
    simp only [convertEntries, Nat.add_zero, List.lookup_cons]
    simp
  | i, f0 :: rest, j + 1, f, hf, hinj => by
    simp only [List.getElem?_cons_succ] at hf
    have hjlen : j < rest.length := by
      have := List.getElem?_eq_some.mp hf
      exact this.1
    have hne : (jsonName (ids (i + (j + 1))) == jsonName (ids i)) = false := by
      rw [beq_eq_false_iff_ne]
      intro hcon
      have hid := jsonName_inj hcon
      have := hinj (j + 1) (by simpa using Nat.succ_lt_succ hjlen) 0 (by simp)
        (by simpa using hid)
      simp at this
    simp only [convertEntries, List.lookup_cons, hne]
    have hinj2 : ∀ k, k < rest.length → ∀ l, l < rest.length →
        ids (i + 1 + k) = ids (i + 1 + l) → k = l := by
      intro k hk l hl he
      have ha1 : i + 1 + k = i + (k + 1) := by omega
      have ha2 : i + 1 + l = i + (l + 1) := by omega
      rw [ha1, ha2] at he
      have := hinj (k + 1) (by simpa using Nat.succ_lt_succ hk)
        (l + 1) (by simpa using Nat.succ_lt_succ hl) he
      omega
    have ih := convertEntries_lookup ids times rid (i + 1) rest j f hf hinj2
    have harith : i + 1 + j = i + (j + 1) := by omega
    rw [harith] at ih
    exact ih

/-! ### Claim C1: review → task conversion -/

/-- C1: converting a persisted review with findings `f0 … f(n-1)` creates
exactly `n` task records in finding order: the `j`-th returned task is
`pending`, linked by `source_review_id` to the review and by
`source_finding_index` to position `j`, with title/description taken from
the finding's title/detail and severity, category, file, startLine,
endLine and suggestion_patch_diff copied verbatim; under fresh distinct
generated ids the store grows by exactly `n` records and each one is
readable under its id; with zero findings nothing is written and the
`task.from_review` tool reports an empty result instead of an error. -/
theorem createTasksFromReview_spec (ids : Nat → String) (times : Nat → Nat)
    (reviewId : String) (review : ReviewRecord) (store : FileStore Task) :
    ((createTasksFromReview ids times reviewId review store).2.length
        = review.findings.length) ∧
    (∀ j f, review.findings[j]? = some f →
      (createTasksFromReview ids times reviewId review store).2[j]? = some
        ({ id := ids j, created_at := times j, updated_at := times j,
           status := .pending,
           source_review_id := some reviewId,
           source_finding_index := some j,
           title := f.title_ko,
           description := f.detail_ko,
           file := f.file,
           startLine := f.startLine,
           endLine := f.endLine,
           severity := f.severity,
           category := f.category,
           suggestion_patch_diff := f.suggestion_patch_diff,
           completed_at := none,
           verification_note := none } : Task)) ∧
    (review.findings = [] →
      (createTasksFromReview ids times reviewId review store).1 = store ∧
      (createTasksFromReview ids times reviewId review store).2 = []) ∧
    (FreshIds ids review.findings.length store →
      (createTasksFromReview ids times reviewId review store).1.length
          = store.length + review.findings.length ∧
      (∀ j f, review.findings[j]? = some f →
        readStoredFile (createTasksFromReview ids times reviewId review store).1
            (jsonName (ids j)) =
          .ok (builtTask (ids j) (times j) (findingToNewTask reviewId j f)))) ∧
    (∀ rstore reviewId2, getReview rstore reviewId2 = .ok review →
      (review.findings = [] →
        taskFromReview ids times rstore store reviewId2 = .ok (store, .noFindings)) ∧
      (review.findings ≠ [] →
        taskFromReview ids times rstore store reviewId2 = .ok
          ((createTasksFromReview ids times reviewId2 review store).1,
            .created (createTasksFromReview ids times reviewId2 review store).2))) := by
  have hshift : ∀ n : Nat, FreshIds ids n store →
      (∀ k, k < n → ∀ p, p ∈ store → p.1 ≠ jsonName (ids (0 + k))) ∧
      (∀ k, k < n → ∀ l, l < n → ids (0 + k) = ids (0 + l) → k = l) := by
    intro n hfr
    constructor
    · intro k hk p hp
      rw [Nat.zero_add]
      exact hfr.1 k hk p hp
    · intro k hk l hl he
      rw [Nat.zero_add, Nat.zero_add] at he
      exact hfr.2 k hk l hl he
  refine ⟨convertLoop_tasks_len ids times reviewId 0 review.findings store, ?_, ?_, ?_, ?_⟩
  · intro j f hf
    have := convertLoop_tasks_get ids times reviewId 0 review.findings store j f hf
    rw [Nat.zero_add] at this
    exact this
  · intro h
    unfold createTasksFromReview
    rw [h]
    exact ⟨rfl, rfl⟩
  · intro hfr
    obtain ⟨hfresh, hinj⟩ := hshift review.findings.length hfr
    have hstore := convertLoop_store_fresh ids times reviewId 0 review.findings store
      hfresh hinj
    constructor
    · unfold createTasksFromReview
      rw [hstore, List.length_append,
        convertEntries_length ids times reviewId 0 review.findings]
    · intro j f hf
      have hnone : store.lookup (jsonName (ids j)) = none := by
        refine lookup_eq_none_of_any_eq_false store _ (any_name_eq_false ?_)
        intro p hp
        have hjlen : j < review.findings.length := (List.getElem?_eq_some.mp hf).1
        exact hfr.1 j hjlen p hp
      have hent := convertEntries_lookup ids times reviewId 0 review.findings j f hf hinj
      rw [Nat.zero_add] at hent
      unfold createTasksFromReview
      rw [hstore]
      unfold readStoredFile
      rw [List.lookup_append, hnone, Option.none_or, hent]
  · intro rstore reviewId2 hget
    constructor
    · intro h
      unfold taskFromReview
      rw [hget]
      simp [h]
    · intro h
      unfold taskFromReview
      rw [hget]
      have : review.findings.isEmpty = false := by
        cases hfe : review.findings
        · exact absurd hfe h
        · rfl
      simp [this]

/-- C1 witness: a concrete review with two findings converted into an
empty store with fresh ids `t0`, `t1`: two tasks are returned in order,
the second carrying `source_finding_index = 1` and the second finding's
fields; the store then holds exactly two records and the second is
readable under id `t1`. -/
theorem createTasksFromReview_spec_witness :
    (createTasksFromReview (fun i => if i = 0 then "t0" else "t1") (fun i => i + 10) "r1"
      { id := "r1", created_at := 0, target := { base := "b", head := "h" },
        summary_ko := "s",
        findings := [
          { severity := Severity.high, title_ko := "x", detail_ko := "dx" },
          { severity := Severity.low, title_ko := "y", detail_ko := "dy",
            category := some "readability" }] }
      []).2.length = 2 ∧
    (createTasksFromReview (fun i => if i = 0 then "t0" else "t1") (fun i => i + 10) "r1"
      { id := "r1", created_at := 0, target := { base := "b", head := "h" },
        summary_ko := "s",
        findings := [
          { severity := Severity.high, title_ko := "x", detail_ko := "dx" },
          { severity := Severity.low, title_ko := "y", detail_ko := "dy",
            category := some "readability" }] }
      []).2[1]? = some
        { id := "t1", created_at := 11, updated_at := 11,
          status := .pending,
          source_review_id := some "r1",
          source_finding_index := some 1,
          title := "y", description := "dy",
          severity := Severity.low, category := some "readability" } ∧
    (createTasksFromReview (fun i => if i = 0 then "t0" else "t1") (fun i => i + 10) "r1"
      { id := "r1", created_at := 0, target := { base := "b", head := "h" },
        summary_ko := "s",
        findings := [
          { severity := Severity.high, title_ko := "x", detail_ko := "dx" },
          { severity := Severity.low, title_ko := "y", detail_ko := "dy",
            category := some "readability" }] }
      []).1.length = 2 := by
  obtain ⟨h1, h2, h3, h4, h5⟩ := createTasksFromReview_spec
    (fun i => if i = 0 then "t0" else "t1") (fun i => i + 10) "r1"
    { id := "r1", created_at := 0, target := { base := "b", head := "h" },
      summary_ko := "s",
      findings := [
        { severity := Severity.high, title_ko := "x", detail_ko := "dx" },
        { severity := Severity.low, title_ko := "y", detail_ko := "dy",
          category := some "readability" }] }
    []
  refine ⟨h1, ?_, ?_⟩
  · exact h2 1 ({ severity := Severity.low, title_ko := "y", detail_ko := "dy",
                  category := some "readability" } : Finding) rfl
  · exact (h4 (by constructor <;> decide)).1

/-! ### Scan lemmas -/

theorem scanTasks_acc_sub (filter : Option TaskStatus) (limit : Option Nat) :
    ∀ (l : FileStore Task) (acc res : List Task),
      scanTasks filter limit l acc = .ok res → ∀ x, x ∈ acc → x ∈ res
  | [], acc, res, h, x, hx => by
    simp only [scanTasks, Except.ok.injEq] at h
    subst h
    simpa using hx
  | (_, .malformed) :: _, acc, res, h, _, _ => by simp [scanTasks] at h
  | (f, .record t) :: rest, acc, res, h, x, hx => by
    simp only [scanTasks] at h
    by_cases hm : statusMatches filter t = true
    · rw [if_pos hm] at h
      by_cases hl : limitHit limit (t :: acc).length = true
      · rw [if_pos hl] at h
        simp only [Except.ok.injEq] at h
        subst h
        simp only [List.mem_reverse, List.mem_cons]
        exact Or.inr hx
      · rw [if_neg hl] at h
        exact scanTasks_acc_sub filter limit rest (t :: acc) res h x (List.mem_cons_of_mem t hx)
    · rw [if_neg hm] at h
      exact scanTasks_acc_sub filter limit rest acc res h x hx

theorem scanTasks_length_le (filter : Option TaskStatus) (k : Nat) (hk : k ≠ 0) :
    ∀ (l : FileStore Task) (acc res : List Task),
      acc.length < k → scanTasks filter (some k) l acc = .ok res → res.length ≤ k
  | [], acc, res, hacc, h => by
    simp only [scanTasks, Except.ok.injEq] at h
    subst h
    simpa using Nat.le_of_lt hacc
  | (_, .malformed) :: _, acc, res, _, h => by simp [scanTasks] at h
  | (f, .record t) :: rest, acc, res, hacc, h => by
    simp only [scanTasks] at h
    by_cases hm : statusMatches filter t = true
    · rw [if_pos hm] at h
      by_cases hl : limitHit (some k) (t :: acc).length = true
      · rw [if_pos hl] at h
        simp only [Except.ok.injEq] at h
        subst h
        simpa using hacc
      · rw [if_neg hl] at h
        have hlt : (t :: acc).length < k := by
          simp only [limitHit, bne_iff_ne, ne_eq, Bool.and_eq_true, decide_eq_true_eq] at hl
          have : ¬ k ≤ (t :: acc).length := fun hle => hl ⟨hk, hle⟩
          omega
        exact scanTasks_length_le filter k hk rest (t :: acc) res hlt h
    · rw [if_neg hm] at h
      exact scanTasks_length_le filter k hk rest acc res hacc h

theorem scanTasks_all_match (filter : Option TaskStatus) (limit : Option Nat) :
    ∀ (l : FileStore Task) (acc res : List Task),
      (∀ x ∈ acc, statusMatches filter x = true) →
      scanTasks filter limit l acc = .ok res → ∀ x ∈ res, statusMatches filter x = true
  | [], acc, res, hacc, h => by
    simp only [scanTasks, Except.ok.injEq] at h
    subst h
    simpa using hacc
  | (_, .malformed) :: _, acc, res, _, h => by simp [scanTasks] at h
  | (f, .record t) :: rest, acc, res, hacc, h => by
    simp only [scanTasks] at h
    by_cases hm : statusMatches filter t = true
    · rw [if_pos hm] at h
      by_cases hl : limitHit limit (t :: acc).length = true
      · rw [if_pos hl] at h
        simp only [Except.ok.injEq] at h
        subst h
        intro x hx
        simp only [List.mem_reverse, List.mem_cons] at hx
        rcases hx with rfl | hx
        · exact hm
        · exact hacc x hx
      · rw [if_neg hl] at h
        refine scanTasks_all_match filter limit rest (t :: acc) res ?_ h
        intro x hx
        rcases List.mem_cons.mp hx with rfl | hx
        · exact hm
        · exact hacc x hx
    · rw [if_neg hm] at h
      exact scanTasks_all_match filter limit rest acc res hacc h

theorem scanTasks_sublist (filter : Option TaskStatus) (limit : Option Nat) :
    ∀ (l : FileStore Task) (acc res : List Task),
      scanTasks filter limit l acc = .ok res →
      ∃ c, res = acc.reverse ++ c ∧ c.Sublist (recordsOf l)
  | [], acc, res, h => by
    simp only [scanTasks, Except.ok.injEq] at h
    subst h
    exact ⟨[], by simp, by simp [recordsOf]⟩
  | (_, .malformed) :: _, acc, res, h => by simp [scanTasks] at h
  | (f, .record t) :: rest, acc, res, h => by
    have hrec : recordsOf ((f, FileContent.record t) :: rest) = t :: recordsOf rest := by
      simp [recordsOf]
    simp only [scanTasks] at h
    by_cases hm : statusMatches filter t = true
    · rw [if_pos hm] at h
      by_cases hl : limitHit limit (t :: acc).length = true
      · rw [if_pos hl] at h
        simp only [Except.ok.injEq] at h
        subst h
        refine ⟨[t], by simp, ?_⟩
        rw [hrec]
        exact (List.nil_sublist _).cons₂ t
      · rw [if_neg hl] at h
        obtain ⟨c, hres, hsub⟩ := scanTasks_sublist filter limit rest (t :: acc) res h
        refine ⟨t :: c, ?_, ?_⟩
        · rw [hres]
          simp
        · rw [hrec]
          exact hsub.cons₂ t
    · rw [if_neg hm] at h
      obtain ⟨c, hres, hsub⟩ := scanTasks_sublist filter limit rest acc res h
      refine ⟨c, hres, ?_⟩
      rw [hrec]
      exact hsub.cons t

theorem scanTasks_break_extend (filter : Option TaskStatus) (k : Nat) (hk : k ≠ 0) :
    ∀ (l1 l2 : FileStore Task) (acc res : List Task),
      acc.length < k →
      scanTasks filter (some k) l1 acc = .ok res → k ≤ res.length →
      scanTasks filter (some k) (l1 ++ l2) acc = .ok res
  | [], _, acc, res, hacc, h, hres => by
    simp only [scanTasks, Except.ok.injEq] at h
    subst h
    simp only [List.length_reverse] at hres
    omega
  | (_, .malformed) :: _, _, acc, res, _, h, _ => by simp [scanTasks] at h
  | (f, .record t) :: rest, l2, acc, res, hacc, h, hres => by
    simp only [scanTasks] at h
    simp only [List.cons_append, scanTasks]
    by_cases hm : statusMatches filter t = true
    · rw [if_pos hm] at h ⊢
      by_cases hl : limitHit (some k) (t :: acc).length = true
      · rw [if_pos hl] at h ⊢
        exact h
      · rw [if_neg hl] at h ⊢
        have hlt : (t :: acc).length < k := by
          simp only [limitHit, bne_iff_ne, ne_eq, Bool.and_eq_true, decide_eq_true_eq] at hl
          have : ¬ k ≤ (t :: acc).length := fun hle => hl ⟨hk, hle⟩
          omega
        exact scanTasks_break_extend filter k hk rest l2 (t :: acc) res hlt h hres
    · rw [if_neg hm] at h ⊢
      exact scanTasks_break_extend filter k hk rest l2 acc res hacc h hres

theorem scanTasks_malformed_error (filter : Option TaskStatus) :
    ∀ (l : FileStore Task) (acc : List Task),
      (∃ p ∈ l, p.2 = FileContent.malformed) →
      scanTasks filter none l acc = .error .malformedParse
  | [], _, h => by simp at h
  | (_, .malformed) :: _, _, _ => rfl
  | (f, .record t) :: rest, acc, h => by
    have hrest : ∃ p ∈ rest, p.2 = FileContent.malformed := by
      rcases h with ⟨p, hp, hmal⟩
      rcases List.mem_cons.mp hp with rfl | hp2
      · simp at hmal
      · exact ⟨p, hp2, hmal⟩
    simp only [scanTasks]
    by_cases hm : statusMatches filter t = true
    · rw [if_pos hm]
      have hlim : limitHit none (t :: acc).length = false := rfl
      rw [hlim]
      simp only [Bool.false_eq_true, if_false]
      exact scanTasks_malformed_error filter rest (t :: acc) hrest
    · rw [if_neg hm]
      exact scanTasks_malformed_error filter rest acc hrest

theorem scanTasks_none_complete (filter : Option TaskStatus) :
    ∀ (l : FileStore Task) (acc res : List Task),
      scanTasks filter none l acc = .ok res →
      ∀ fname t, (fname, FileContent.record t) ∈ l →
        statusMatches filter t = true → t ∈ res
  | [], _, _, _, _, t, hmem, _ => by simp at hmem
  | (_, .malformed) :: _, acc, res, h, _, _, _, _ => by simp [scanTasks] at h
  | (f, .record t0) :: rest, acc, res, h, fname, t, hmem, hmatch => by
    simp only [scanTasks] at h
    have hlim : limitHit none (t0 :: acc).length = false := rfl
    by_cases hm : statusMatches filter t0 = true
    · rw [if_pos hm, hlim] at h
      simp only [Bool.false_eq_true, if_false] at h
      rcases List.mem_cons.mp hmem with heq | hmem2
      · have ht : t = t0 := by
          have := congrArg Prod.snd heq
          simpa using this
        subst ht
        exact scanTasks_acc_sub filter none rest (t :: acc) res h t (List.mem_cons_self t acc)
      · exact scanTasks_none_complete filter rest (t0 :: acc) res h fname t hmem2 hmatch
    · rw [if_neg hm] at h
      rcases List.mem_cons.mp hmem with heq | hmem2
      · have ht : t = t0 := by
          have := congrArg Prod.snd heq
          simpa using this
        subst ht
        exact absurd hmatch hm
      · exact scanTasks_none_complete filter rest acc res h fname t hmem2 hmatch

/-! ### Claim C6: listTasks -/

/-- C6: for every task collection, every optional status filter and
every (boundary-legal, hence positive) limit `k`, `listTasks` returns at
most `k` records, every returned record has status `s` whenever the
filter `some s` is supplied, the result is ordered
newest-identifier-first (descending string order on the record ids, given
the store invariants that files are named `id++".json"`, file names are
distinct, and generated ids all have the same length), and the scan stops
as soon as `k` matches are collected: a prefix of the sorted directory
that already yields `k` matches determines the whole result, whatever
follows it. -/
theorem listTasks_spec (store : FileStore Task) (filter : Option TaskStatus)
    (k : Nat) (hk : 0 < k) :
    (∀ l, listTasks store filter (some k) = .ok l →
      l.length ≤ k ∧
      (∀ s, filter = some s → ∀ t ∈ l, t.status = s) ∧
      (store.Pairwise (fun p q => p.1 ≠ q.1) →
        (∀ p ∈ store, ∀ t, p.2 = FileContent.record t → p.1 = jsonName t.id) →
        (∀ p ∈ store, ∀ q ∈ store, ∀ t u, p.2 = FileContent.record t →
          q.2 = FileContent.record u → t.id.length = u.id.length) →
        l.Pairwise (fun a b => strLt b.id a.id = true))) ∧
    (∀ pre post out, sortDescByName (jsonFiles store) = pre ++ post →
      scanTasks filter (some k) pre [] = .ok out → k ≤ out.length →
      listTasks store filter (some k) = .ok out) := by
  have hk0 : k ≠ 0 := Nat.pos_iff_ne_zero.mp hk
  constructor
  · intro l hl
    refine ⟨?_, ?_, ?_⟩
    · exact scanTasks_length_le filter k hk0 _ [] l (by simpa using hk) hl
    · intro s hfs t ht
      have := scanTasks_all_match filter (some k) _ [] l (by simp) hl t ht
      rw [hfs] at this
      simpa [statusMatches] using this
    · intro hnd hname hlen
      obtain ⟨c, hres, hsub⟩ := scanTasks_sublist filter (some k) _ [] l hl
      simp only [List.reverse_nil, List.nil_append] at hres
      subst hres
      have hperm := List.perm_insertionSort (nameDesc (α := Task)) (jsonFiles store)
      have hsorted : (sortDescByName (jsonFiles store)).Pairwise (nameDesc (α := Task)) :=
        List.sorted_insertionSort nameDesc (jsonFiles store)
      have hnd2 : (jsonFiles store).Pairwise (fun p q => p.1 ≠ q.1) := by
        unfold jsonFiles
        exact List.Pairwise.filter _ hnd
      have hnd3 : (sortDescByName (jsonFiles store)).Pairwise (fun p q => p.1 ≠ q.1) :=
        (List.Perm.pairwise_iff (fun h => h.symm) hperm).mpr hnd2
      have hmemstore : ∀ p, p ∈ sortDescByName (jsonFiles store) → p ∈ store := by
        intro p hp
        have hp2 : p ∈ jsonFiles store := hperm.mem_iff.mp hp
        exact (List.mem_filter.mp hp2).1
      have hcomb := hsorted.and hnd3
      have hrec : (recordsOf (sortDescByName (jsonFiles store))).Pairwise
          (fun a b => strLt b.id a.id = true) := by
        unfold recordsOf
        rw [List.pairwise_filterMap]
        refine hcomb.imp_of_mem ?_
        intro p q hp hq hpq a ha b hb
        cases hp2 : p.2 with
        | malformed => rw [hp2] at ha; simp at ha
        | record t =>
          rw [hp2] at ha
          simp only [Option.mem_def, Option.some.injEq] at ha
          cases hq2 : q.2 with
          | malformed => rw [hq2] at hb; simp at hb
          | record u =>
            rw [hq2] at hb
            simp only [Option.mem_def, Option.some.injEq] at hb
            rw [ha] at hp2
            rw [hb] at hq2
            have hpn := hname p (hmemstore p hp) a hp2
            have hqn := hname q (hmemstore q hq) b hq2
            have hlen2 := hlen p (hmemstore p hp) q (hmemstore q hq) a b hp2 hq2
            have hlt : strLt q.1 p.1 = true :=
              strLt_of_le_of_ne hpq.1 fun he => hpq.2 he.symm
            rw [hpn, hqn] at hlt
            unfold jsonName at hlt
            exact strLt_append_cancel b.id a.id ".json" hlen2.symm hlt
      exact List.Pairwise.sublist hsub hrec
  · intro pre post out hsplit hpre hout
    unfold listTasks
    rw [hsplit]
    exact scanTasks_break_extend filter k hk0 pre post [] out (by simpa using hk) hpre hout

/-- C6 witness: three pending tasks `a`, `b`, `c`; listing with status
filter `pending` and limit 2 returns exactly the two newest ids `c`, `b`
in descending order, scanning only the first two sorted entries already
determines that result, and the same bound and ordering hold for the
absent-filter listing. -/
theorem listTasks_spec_witness :
    listTasks
      [(jsonName "a", FileContent.record
        { id := "a", created_at := 0, updated_at := 0, status := TaskStatus.pending,
          title := "ta", description := "da", severity := Severity.low }),
       (jsonName "c", FileContent.record
        { id := "c", created_at := 2, updated_at := 2, status := TaskStatus.pending,
          title := "tc", description := "dc", severity := Severity.low }),
       (jsonName "b", FileContent.record
        { id := "b", created_at := 1, updated_at := 1, status := TaskStatus.pending,
          title := "tb", description := "db", severity := Severity.low })]
      (some TaskStatus.pending) (some 2) = .ok
        [{ id := "c", created_at := 2, updated_at := 2, status := TaskStatus.pending,
           title := "tc", description := "dc", severity := Severity.low },
         { id := "b", created_at := 1, updated_at := 1, status := TaskStatus.pending,
           title := "tb", description := "db", severity := Severity.low }] ∧
    ([({ id := "c", created_at := 2, updated_at := 2, status := TaskStatus.pending,
         title := "tc", description := "dc", severity := Severity.low } : Task),
      { id := "b", created_at := 1, updated_at := 1, status := TaskStatus.pending,
        title := "tb", description := "db", severity := Severity.low }].length ≤ 2) ∧
    (∀ t ∈ [({ id := "c", created_at := 2, updated_at := 2, status := TaskStatus.pending,
               title := "tc", description := "dc", severity := Severity.low } : Task),
            { id := "b", created_at := 1, updated_at := 1, status := TaskStatus.pending,
              title := "tb", description := "db", severity := Severity.low }],
      t.status = TaskStatus.pending) ∧
    ([({ id := "c", created_at := 2, updated_at := 2, status := TaskStatus.pending,
         title := "tc", description := "dc", severity := Severity.low } : Task),
      { id := "b", created_at := 1, updated_at := 1, status := TaskStatus.pending,
        title := "tb", description := "db", severity := Severity.low }].Pairwise
      (fun a b => strLt b.id a.id = true)) ∧
    listTasks
      [(jsonName "a", FileContent.record
        { id := "a", created_at := 0, updated_at := 0, status := TaskStatus.pending,
          title := "ta", description := "da", severity := Severity.low }),
       (jsonName "c", FileContent.record
        { id := "c", created_at := 2, updated_at := 2, status := TaskStatus.pending,
          title := "tc", description := "dc", severity := Severity.low }),
       (jsonName "b", FileContent.record
        { id := "b", created_at := 1, updated_at := 1, status := TaskStatus.pending,
          title := "tb", description := "db", severity := Severity.low })]
      none (some 2) = .ok
        [{ id := "c", created_at := 2, updated_at := 2, status := TaskStatus.pending,
           title := "tc", description := "dc", severity := Severity.low },
         { id := "b", created_at := 1, updated_at := 1, status := TaskStatus.pending,
           title := "tb", description := "db", severity := Severity.low }] ∧
    ([({ id := "c", created_at := 2, updated_at := 2, status := TaskStatus.pending,
         title := "tc", description := "dc", severity := Severity.low } : Task),
      { id := "b", created_at := 1, updated_at := 1, status := TaskStatus.pending,
        title := "tb", description := "db", severity := Severity.low }].length ≤ 2) := by
  obtain ⟨h1, h2⟩ := listTasks_spec
    [(jsonName "a", FileContent.record
      { id := "a", created_at := 0, updated_at := 0, status := TaskStatus.pending,
        title := "ta", description := "da", severity := Severity.low }),
     (jsonName "c", FileContent.record
      { id := "c", created_at := 2, updated_at := 2, status := TaskStatus.pending,
        title := "tc", description := "dc", severity := Severity.low }),
     (jsonName "b", FileContent.record
      { id := "b", created_at := 1, updated_at := 1, status := TaskStatus.pending,
        title := "tb", description := "db", severity := Severity.low })]
    (some TaskStatus.pending) 2 (by decide)
  obtain ⟨h1n, h2n⟩ := listTasks_spec
    [(jsonName "a", FileContent.record
      { id := "a", created_at := 0, updated_at := 0, status := TaskStatus.pending,
        title := "ta", description := "da", severity := Severity.low }),
     (jsonName "c", FileContent.record
      { id := "c", created_at := 2, updated_at := 2, status := TaskStatus.pending,
        title := "tc", description := "dc", severity := Severity.low }),
     (jsonName "b", FileContent.record
      { id := "b", created_at := 1, updated_at := 1, status := TaskStatus.pending,
        title := "tb", description := "db", severity := Severity.low })]
    none 2 (by decide)
  have heval := h2
    [(jsonName "c", FileContent.record
      { id := "c", created_at := 2, updated_at := 2, status := TaskStatus.pending,
        title := "tc", description := "dc", severity := Severity.low }),
     (jsonName "b", FileContent.record
      { id := "b", created_at := 1, updated_at := 1, status := TaskStatus.pending,
        title := "tb", description := "db", severity := Severity.low })]
    [(jsonName "a", FileContent.record
      { id := "a", created_at := 0, updated_at := 0, status := TaskStatus.pending,
        title := "ta", description := "da", severity := Severity.low })]
    [{ id := "c", created_at := 2, updated_at := 2, status := TaskStatus.pending,
       title := "tc", description := "dc", severity := Severity.low },
     { id := "b", created_at := 1, updated_at := 1, status := TaskStatus.pending,
       title := "tb", description := "db", severity := Severity.low }]
    rfl rfl (by decide)
  have hevaln := h2n
    [(jsonName "c", FileContent.record
      { id := "c", created_at := 2, updated_at := 2, status := TaskStatus.pending,
        title := "tc", description := "dc", severity := Severity.low }),
     (jsonName "b", FileContent.record
      { id := "b", created_at := 1, updated_at := 1, status := TaskStatus.pending,
        title := "tb", description := "db", severity := Severity.low })]
    [(jsonName "a", FileContent.record
      { id := "a", created_at := 0, updated_at := 0, status := TaskStatus.pending,
        title := "ta", description := "da", severity := Severity.low })]
    [{ id := "c", created_at := 2, updated_at := 2, status := TaskStatus.pending,
       title := "tc", description := "dc", severity := Severity.low },
     { id := "b", created_at := 1, updated_at := 1, status := TaskStatus.pending,
       title := "tb", description := "db", severity := Severity.low }]
    rfl rfl (by decide)
  obtain ⟨hlen, hmatch, hpair⟩ := h1 _ heval
  obtain ⟨hlenn, -, -⟩ := h1n _ hevaln
  refine ⟨heval, hlen, hmatch TaskStatus.pending rfl, hpair (by decide) ?_ ?_, hevaln, hlenn⟩
  · intro p hp t ht
    simp only [List.mem_cons, List.not_mem_nil, or_false] at hp
    rcases hp with rfl | rfl | rfl <;> cases ht <;> rfl
  · intro p hp q hq t u ht hu
    simp only [List.mem_cons, List.not_mem_nil, or_false] at hp hq
    rcases hp with rfl | rfl | rfl <;> rcases hq with rfl | rfl | rfl <;>
      cases ht <;> cases hu <;> rfl

/-! ### Claim C8: malformed records fail visibly -/

theorem readSliced_malformed {α : Type} :
    ∀ l : FileStore α, (∃ p ∈ l, p.2 = FileContent.malformed) →
      readSliced l = .error .malformedParse
  | [], h => by simp at h
  | (f, c) :: rest, h => by
    cases c with
    | malformed => rfl
    | record r =>
      have hrest : ∃ p ∈ rest, p.2 = FileContent.malformed := by
        rcases h with ⟨p, hp, hmal⟩
        rcases List.mem_cons.mp hp with rfl | hp2
        · simp at hmal
        · exact ⟨p, hp2, hmal⟩
      have ih := readSliced_malformed rest hrest
      simp only [readSliced, parsedContent]
      rw [ih]

/-- C8: a stored file whose content fails to parse makes every read of
it fail visibly instead of being skipped or repaired: `getTask` and
`getReview` on such a file return the parse error; `listTasks` (shown
here for an uncapped scan, which reads every `.json` file) fails as soon
as any scanned file is malformed, and when it does succeed it has
omitted nothing — every parsable record passing the filter is in the
result; `listReviews` fails if any file of its slice is malformed. -/
theorem malformed_visible_failure :
    (∀ (store : FileStore Task) (id : String),
      store.lookup (jsonName id) = some .malformed →
      getTask store id = .error .malformedParse) ∧
    (∀ (store : FileStore Task) (filter : Option TaskStatus),
      (∃ p ∈ store, p.2 = FileContent.malformed ∧ strEndsWith p.1 ".json" = true) →
      listTasks store filter none = .error .malformedParse) ∧
    (∀ (store : FileStore Task) (filter : Option TaskStatus) (l : List Task),
      listTasks store filter none = .ok l →
      ∀ fname t, (fname, FileContent.record t) ∈ store →
        strEndsWith fname ".json" = true → statusMatches filter t = true → t ∈ l) ∧
    (∀ (rstore : FileStore ReviewRecord) (id : String),
      rstore.lookup (jsonName id) = some .malformed →
      getReview rstore id = .error .malformedParse) ∧
    (∀ (rstore : FileStore ReviewRecord) (limit : Nat),
      (∃ p ∈ slicedReviews rstore limit, p.2 = FileContent.malformed) →
      listReviews rstore limit = .error .malformedParse) := by
  refine ⟨?_, ?_, ?_, ?_, ?_⟩
  · intro store id h
    unfold getTask readStoredFile
    rw [h]
  · intro store filter h
    obtain ⟨p, hp, hmal, hjson⟩ := h
    have hpj : p ∈ jsonFiles store := by
      unfold jsonFiles
      exact List.mem_filter.mpr ⟨hp, hjson⟩
    have hps : p ∈ sortDescByName (jsonFiles store) :=
      (List.perm_insertionSort (nameDesc (α := Task)) (jsonFiles store)).mem_iff.mpr hpj
    unfold listTasks
    exact scanTasks_malformed_error filter _ [] ⟨p, hps, hmal⟩
  · intro store filter l hl fname t hmem hjson hmatch
    have hpj : (fname, FileContent.record t) ∈ jsonFiles store := by
      unfold jsonFiles
      exact List.mem_filter.mpr ⟨hmem, hjson⟩
    have hps : (fname, FileContent.record t) ∈ sortDescByName (jsonFiles store) :=
      (List.perm_insertionSort (nameDesc (α := Task)) (jsonFiles store)).mem_iff.mpr hpj
    exact scanTasks_none_complete filter _ [] l hl fname t hps hmatch
  · intro rstore id h
    unfold getReview readStoredFile
    rw [h]
  · intro rstore limit h
    unfold listReviews
    exact readSliced_malformed _ h

/-- C8 witness: with a concrete malformed `m.json` next to a good
record, `getTask` fails with a parse error, the uncapped `listTasks`
scan fails rather than skipping it, a clean store's listing contains
every matching record, and `getReview`/`listReviews` behave the same on
a malformed review file. -/
theorem malformed_visible_failure_witness :
    getTask [(jsonName "m", FileContent.malformed),
             (jsonName "a", FileContent.record
               { id := "a", created_at := 0, updated_at := 0, status := TaskStatus.pending,
                 title := "ta", description := "da", severity := Severity.low })]
      "m" = .error .malformedParse ∧
    listTasks [(jsonName "m", FileContent.malformed),
               (jsonName "a", FileContent.record
                 { id := "a", created_at := 0, updated_at := 0, status := TaskStatus.pending,
                   title := "ta", description := "da", severity := Severity.low })]
      none none = .error .malformedParse ∧
    ({ id := "a", created_at := 0, updated_at := 0, status := TaskStatus.pending,
       title := "ta", description := "da", severity := Severity.low } : Task) ∈
      [({ id := "a", created_at := 0, updated_at := 0, status := TaskStatus.pending,
          title := "ta", description := "da", severity := Severity.low } : Task)] ∧
    getReview [(jsonName "r", FileContent.malformed)] "r" = .error .malformedParse ∧
    listReviews [(jsonName "r", FileContent.malformed)] 20 = .error .malformedParse := by
  obtain ⟨h1, h2, h3, h4, h5⟩ := malformed_visible_failure
  refine ⟨?_, ?_, ?_, ?_, ?_⟩
  · exact h1 _ "m" rfl
  · exact h2 _ none ⟨(jsonName "m", FileContent.malformed), by decide⟩
  · exact h3 [(jsonName "a", FileContent.record
        { id := "a", created_at := 0, updated_at := 0, status := TaskStatus.pending,
          title := "ta", description := "da", severity := Severity.low })]
      none
      [{ id := "a", created_at := 0, updated_at := 0, status := TaskStatus.pending,
         title := "ta", description := "da", severity := Severity.low }]
      rfl (jsonName "a")
      { id := "a", created_at := 0, updated_at := 0, status := TaskStatus.pending,
        title := "ta", description := "da", severity := Severity.low }
      (by decide) (by decide) rfl
  · exact h4 _ "r" rfl
  · exact h5 _ 20 ⟨(jsonName "r", FileContent.malformed), by decide⟩

end Washer
